import Mathlib

/-!
# Verification of the Q15 saturating AXPY challenge

A shallow embedding of `src/q15_axpy_challenge.c`.  16-bit and 32-bit
machine integers are modelled as `Int` with explicit range conditions;
buffers are `List Int`.  The scalar kernel `q15_axpy_ref`, the RVV kernel
`q15_axpy_rvv` (parametrised by the hardware vector length `vlmax`, the
value `VLMAX` that `vsetvl_e16m1` clamps to), the non-RISC-V fallback,
`arrays_match` and the edge-case battery `run_edge_tests` are embedded
directly from the source.
-/

/-- C cast `(int16_t)v`: wrap an integer into the 16-bit signed range
(two's-complement reduction). -/
def wrap16 (v : Int) : Int := (v + 32768) % 65536 - 32768

/-- `sat_q15` from the source: clamp a 32-bit value to the 16-bit signed
range; the final branch is the C narrowing cast `(int16_t)v`. -/
def sat_q15 (v : Int) : Int :=
  if v > 32767 then 32767
  else if v < -32768 then -32768
  else wrap16 v

/-- The wide accumulator of the scalar kernel:
`(int32_t)a[i] + (int32_t)alpha * (int32_t)b[i]`. -/
def q15_acc (a alpha b : Int) : Int := a + alpha * b

/-- One iteration of the scalar loop: `y[i] = sat_q15(a[i] + alpha*b[i])`. -/
def axpyStep (a b : List Int) (alpha : Int) (y : List Int) (i : Nat) : List Int :=
  y.set i (sat_q15 (q15_acc (a.getD i 0) alpha (b.getD i 0)))

/-- `q15_axpy_ref` from the source: `for (int i = 0; i < n; i++)`, writing
`y[i] = sat_q15((int32_t)a[i] + (int32_t)alpha * (int32_t)b[i])`.
With a C `int` length, the loop runs for `i = 0 .. n-1` when `n > 0` and
not at all otherwise, i.e. over `List.range n.toNat`. -/
def q15_axpy_ref (a b y : List Int) (n : Int) (alpha : Int) : List Int :=
  (List.range n.toNat).foldl (axpyStep a b alpha) y

/-- RVV intrinsic `__riscv_vwmul_vx_i32m2`, one lane: widening multiply of a
16-bit element by the scalar `alpha`; exact in `Int`. -/
def vwmul_vx (b alpha : Int) : Int := b * alpha

/-- RVV intrinsic `__riscv_vwadd_wv_i32m2`, one lane: add a widened 16-bit
element to a 32-bit element. -/
def vwadd_wv (p a : Int) : Int := p + a

/-- RVV intrinsic `__riscv_vnclip_wx_i16m1` with shift amount `0` and
rounding mode RNU, one lane: the round increment for a zero shift is zero,
so the instruction saturates the 32-bit value to the 16-bit signed range. -/
def vnclip0_rnu (v : Int) : Int := sat_q15 v

/-- One chunk of the RVV kernel: load `vl` lanes at offset `off`, widening
multiply by `alpha`, widening add, saturating narrow, store. -/
def rvvChunk (a b : List Int) (alpha : Int) (off vl : Nat) (y : List Int) : List Int :=
  (List.range vl).foldl
    (fun acc j =>
      acc.set (off + j)
        (vnclip0_rnu (vwadd_wv (vwmul_vx (b.getD (off + j) 0) alpha) (a.getD (off + j) 0))))
    y

/-- The `while (remaining > 0)` loop of `q15_axpy_rvv`.
`vsetvl_e16m1(remaining)` returns `min VLMAX remaining`; the RVV
architecture guarantees this is nonzero for a nonzero request (`VLMAX ≥ 1`),
so the `min vlmax remaining = 0` branch is an unreachable termination guard. -/
def rvvLoop (vlmax : Nat) (a b : List Int) (alpha : Int) (off remaining : Nat)
    (y : List Int) : List Int :=
  if remaining = 0 then y
  else if min vlmax remaining = 0 then y
  else
    rvvLoop vlmax a b alpha (off + min vlmax remaining) (remaining - min vlmax remaining)
      (rvvChunk a b alpha off (min vlmax remaining) y)
termination_by remaining
decreasing_by omega

/-- `q15_axpy_rvv` from the source (RVV path): `size_t remaining = (size_t)n`
followed by the chunked loop.  The C cast of the `int` length to `size_t`
reduces it modulo `2^64`. -/
def q15_axpy_rvv (vlmax : Nat) (a b y : List Int) (n : Int) (alpha : Int) : List Int :=
  rvvLoop vlmax a b alpha 0 (n % (2 : Int) ^ 64).toNat y

/-- `q15_axpy_rvv` from the source (non-RISC-V fallback): delegates to the
scalar kernel. -/
def q15_axpy_rvv_fallback (a b y : List Int) (n : Int) (alpha : Int) : List Int :=
  q15_axpy_ref a b y n alpha

/-- The C absolute value pattern `if (diff < 0) diff = -diff;`. -/
def cAbs (x : Int) : Int := if x < 0 then -x else x

/-- One iteration of the `arrays_match` loop: compute the absolute
difference, update the running maximum, clear the match flag on a nonzero
difference.  State is `(match, *max_diff)`. -/
def matchStep (r t : List Int) (st : Bool × Int) (i : Nat) : Bool × Int :=
  let diff := cAbs (r.getD i 0 - t.getD i 0)
  (if diff ≠ 0 then false else st.1, if diff > st.2 then diff else st.2)

/-- `arrays_match` from the source: scan indices `0 .. n-1`, returning the
match flag and the maximum absolute difference. -/
def arrays_match (r t : List Int) (n : Int) : Bool × Int :=
  (List.range n.toNat).foldl (matchStep r t) (true, 0)

/-- One case of `run_edge_tests`: run both kernels on the single-element
inputs and require both results to equal the expected value. -/
def edge_case (vlmax : Nat) (a b alpha expected : Int) : Bool :=
  ((q15_axpy_ref [a] [b] [0] 1 alpha).getD 0 0 == expected) &&
  ((q15_axpy_rvv vlmax [a] [b] [0] 1 alpha).getD 0 0 == expected)

/-- `run_edge_tests` from the source: the four single-element edge cases;
`pass` stays set only if every case passes for both kernels. -/
def run_edge_tests (vlmax : Nat) : Bool :=
  edge_case vlmax 32767 1 1 32767 &&
  edge_case vlmax (-32768) 1 (-1) (-32768) &&
  edge_case vlmax 0 32767 32767 32767 &&
  edge_case vlmax 100 200 5 1100

/-! ## Basic list helpers -/

theorem getD_set_self (l : List Int) (i : Nat) (v d : Int) (h : i < l.length) :
    (l.set i v).getD i d = v := by
  simp [List.getD_eq_getElem?_getD, List.getElem?_set_self, h]

theorem getD_set_ne (l : List Int) (i j : Nat) (v d : Int) (h : i ≠ j) :
    (l.set i v).getD j d = l.getD j d := by
  simp [List.getD_eq_getElem?_getD, List.getElem?_set_ne h]

/-! ## Properties of the saturation primitive -/

theorem wrap16_eq_self (v : Int) (h1 : -32768 ≤ v) (h2 : v ≤ 32767) : wrap16 v = v := by
  unfold wrap16
  omega

theorem sat_q15_range (v : Int) : -32768 ≤ sat_q15 v ∧ sat_q15 v ≤ 32767 := by
  unfold sat_q15 wrap16
  split
  · omega
  · split <;> omega

/-! ## The scalar fold over an index range -/

theorem foldl_axpyStep_length (a b : List Int) (alpha : Int) :
    ∀ (m s : Nat) (y : List Int),
      ((List.range' s m).foldl (axpyStep a b alpha) y).length = y.length := by
  intro m
  induction m with
  | zero => intro s y; simp
  | succ k ih =>
      intro s y
      rw [List.range'_succ, List.foldl_cons, ih]
      simp [axpyStep]

theorem foldl_axpyStep_frame (a b : List Int) (alpha : Int) (d : Int) :
    ∀ (m s : Nat) (y : List Int) (i : Nat), (i < s ∨ s + m ≤ i) →
      ((List.range' s m).foldl (axpyStep a b alpha) y).getD i d = y.getD i d := by
  intro m
  induction m with
  | zero => intro s y i _; simp
  | succ k ih =>
      intro s y i hi
      rw [List.range'_succ, List.foldl_cons, ih (s + 1) _ i (by omega)]
      exact getD_set_ne _ _ _ _ _ (by omega)

theorem foldl_axpyStep_getD (a b : List Int) (alpha : Int) :
    ∀ (m s : Nat) (y : List Int) (i : Nat), s ≤ i → i < s + m → i < y.length →
      ((List.range' s m).foldl (axpyStep a b alpha) y).getD i 0
        = sat_q15 (q15_acc (a.getD i 0) alpha (b.getD i 0)) := by
  intro m
  induction m with
  | zero => intro s y i h1 h2 _; omega
  | succ k ih =>
      intro s y i h1 h2 hlen
      rw [List.range'_succ, List.foldl_cons]
      by_cases hc : i = s
      · subst hc
        rw [foldl_axpyStep_frame a b alpha 0 k (i + 1) _ i (by omega)]
        exact getD_set_self _ _ _ _ hlen
      · exact ih (s + 1) _ i (by omega) (by omega) (by simp [axpyStep]; omega)

/-! ## Equivalence of the RVV kernel with the scalar kernel -/

theorem rvvChunk_eq (a b : List Int) (alpha : Int) (off vl : Nat) (y : List Int) :
    rvvChunk a b alpha off vl y = (List.range' off vl).foldl (axpyStep a b alpha) y := by
  rw [rvvChunk, List.range'_eq_map_range, List.foldl_map]
  apply List.foldl_ext
  intro acc j _
  unfold axpyStep vnclip0_rnu vwadd_wv vwmul_vx q15_acc
  rw [Int.mul_comm, Int.add_comm]

theorem rvvLoop_eq (vlmax : Nat) (a b : List Int) (alpha : Int) (hv : 1 ≤ vlmax) :
    ∀ (remaining off : Nat) (y : List Int),
      rvvLoop vlmax a b alpha off remaining y
        = (List.range' off remaining).foldl (axpyStep a b alpha) y := by
  intro remaining
  induction remaining using Nat.strong_induction_on with
  | _ remaining ih =>
      intro off y
      rw [rvvLoop]
      by_cases h0 : remaining = 0
      · simp [h0]
      · have hvl : ¬ min vlmax remaining = 0 := by omega
        rw [if_neg h0, if_neg hvl,
          ih (remaining - min vlmax remaining) (by omega), rvvChunk_eq,
          ← List.foldl_append, List.range'_append_1]
        have : remaining - min vlmax remaining + min vlmax remaining = remaining := by
          omega
        rw [this]

theorem rvv_eq_ref (vlmax : Nat) (a b y : List Int) (n : Int) (alpha : Int)
    (hv : 1 ≤ vlmax) (hn0 : 0 ≤ n) (hn1 : n < 2 ^ 64) :
    q15_axpy_rvv vlmax a b y n alpha = q15_axpy_ref a b y n alpha := by
  rw [q15_axpy_rvv, q15_axpy_ref, Int.emod_eq_of_lt hn0 (by norm_num at hn1 ⊢; exact hn1),
    rvvLoop_eq vlmax a b alpha hv, List.range_eq_range']

/-! ## Properties of the comparison loop -/

theorem cAbs_eq_abs (x : Int) : cAbs x = |x| := by
  unfold cAbs
  split
  · exact (abs_of_neg (by omega)).symm
  · exact (abs_of_nonneg (by omega)).symm

theorem cAbs_nonneg (x : Int) : 0 ≤ cAbs x := by
  rw [cAbs_eq_abs]; exact abs_nonneg x

theorem cAbs_eq_zero (x : Int) : cAbs x = 0 ↔ x = 0 := by
  rw [cAbs_eq_abs]; exact abs_eq_zero

theorem matchStep_fst (r t : List Int) (st : Bool × Int) (i : Nat) :
    (matchStep r t st i).1 = true ↔
      st.1 = true ∧ r.getD i 0 = t.getD i 0 := by
  unfold matchStep
  dsimp only
  split
  · next h =>
      have ht : ¬ r.getD i 0 = t.getD i 0 := fun he =>
        h (by rw [cAbs_eq_zero, sub_eq_zero]; exact he)
      constructor
      · intro hf; exact absurd hf Bool.false_ne_true
      · rintro ⟨_, he⟩; exact absurd he ht
  · next h =>
      have ht : r.getD i 0 = t.getD i 0 := by
        rw [← sub_eq_zero, ← cAbs_eq_zero]
        exact not_not.mp h
      exact ⟨fun h1 => ⟨h1, ht⟩, fun h2 => h2.1⟩

theorem matchStep_snd (r t : List Int) (st : Bool × Int) (i : Nat) :
    (matchStep r t st i).2 = max st.2 (cAbs (r.getD i 0 - t.getD i 0)) := by
  unfold matchStep
  dsimp only
  rw [max_def]
  split <;> split <;> omega

theorem foldl_matchStep_fst (r t : List Int) :
    ∀ (l : List Nat) (st : Bool × Int),
      ((l.foldl (matchStep r t) st).1 = true ↔
        st.1 = true ∧ ∀ i ∈ l, r.getD i 0 = t.getD i 0) := by
  intro l
  induction l with
  | nil => intro st; simp
  | cons j l ih =>
      intro st
      rw [List.foldl_cons, ih, matchStep_fst]
      constructor
      · rintro ⟨⟨h1, h2⟩, h3⟩
        refine ⟨h1, ?_⟩
        intro i hi
        rcases List.mem_cons.mp hi with hi | hi
        · subst hi; exact h2
        · exact h3 i hi
      · rintro ⟨h1, h2⟩
        exact ⟨⟨h1, h2 j (List.mem_cons_self j l)⟩,
          fun i hi => h2 i (List.mem_cons_of_mem j hi)⟩

theorem foldl_matchStep_snd_ub (r t : List Int) :
    ∀ (l : List Nat) (st : Bool × Int),
      st.2 ≤ (l.foldl (matchStep r t) st).2 ∧
        ∀ i ∈ l, cAbs (r.getD i 0 - t.getD i 0) ≤ (l.foldl (matchStep r t) st).2 := by
  intro l
  induction l with
  | nil => intro st; simp
  | cons j l ih =>
      intro st
      rw [List.foldl_cons]
      obtain ⟨h1, h2⟩ := ih (matchStep r t st j)
      rw [matchStep_snd] at h1
      refine ⟨le_trans (le_max_left _ _) h1, ?_⟩
      intro i hi
      rcases List.mem_cons.mp hi with hi | hi
      · subst hi; exact le_trans (le_max_right _ _) h1
      · exact h2 i hi

theorem foldl_matchStep_snd_mem (r t : List Int) :
    ∀ (l : List Nat) (st : Bool × Int),
      (l.foldl (matchStep r t) st).2 = st.2 ∨
        ∃ i ∈ l, (l.foldl (matchStep r t) st).2 = cAbs (r.getD i 0 - t.getD i 0) := by
  intro l
  induction l with
  | nil => intro st; simp
  | cons j l ih =>
      intro st
      rw [List.foldl_cons]
      rcases ih (matchStep r t st j) with h | ⟨i, hi, h⟩
      · rw [matchStep_snd, max_def] at h
        split at h
        · exact Or.inr ⟨j, List.mem_cons_self j l, h⟩
        · exact Or.inl h
      · exact Or.inr ⟨i, List.mem_cons_of_mem j hi, h⟩

theorem matchStep_comm (r t : List Int) (st : Bool × Int) (i : Nat) :
    matchStep r t st i = matchStep t r st i := by
  unfold matchStep
  have h : cAbs (r.getD i 0 - t.getD i 0) = cAbs (t.getD i 0 - r.getD i 0) := by
    unfold cAbs
    split <;> split <;> omega
  simp only [h]

/-! ## Bounds on the wide accumulator -/

theorem q15_acc_prod_bounds (alpha b : Int)
    (hl1 : -32768 ≤ alpha) (hl2 : alpha ≤ 32767)
    (hb1 : -32768 ≤ b) (hb2 : b ≤ 32767) :
    -(32768 * 32767) ≤ alpha * b ∧ alpha * b ≤ 32768 * 32768 := by
  have c3 : (0 : Int) ≤ (alpha + 32768) * (32767 - b) :=
    mul_nonneg (by omega) (by omega)
  have c4 : (0 : Int) ≤ (32767 - alpha) * (b + 32768) :=
    mul_nonneg (by omega) (by omega)
  constructor
  · rcases le_or_lt 0 alpha with h | h
    · nlinarith [mul_le_mul_of_nonneg_left hb1 h]
    · nlinarith [mul_le_mul_of_nonpos_left hb2 (le_of_lt h)]
  · nlinarith [c3, c4]

theorem q15_acc_fits (a alpha b : Int)
    (ha1 : -32768 ≤ a) (ha2 : a ≤ 32767)
    (hl1 : -32768 ≤ alpha) (hl2 : alpha ≤ 32767)
    (hb1 : -32768 ≤ b) (hb2 : b ≤ 32767) :
    |q15_acc a alpha b| ≤ 32767 + 32768 * 32768 := by
  obtain ⟨hp1, hp2⟩ := q15_acc_prod_bounds alpha b hl1 hl2 hb1 hb2
  rw [abs_le]
  unfold q15_acc
  omega

/-! ## Claim theorems -/

/-- **C1**: for every `n ≥ 0`, every 16-bit signed `alpha`, and all 16-bit
signed input sequences `a` and `b` of length `n`, the data-parallel kernel
`q15_axpy_rvv` (chunked by any positive hardware width `vlmax`, including a
final partial chunk) produces an output sequence element-wise identical to
the scalar reference kernel `q15_axpy_ref`, and the non-RISC-V fallback
also equals the scalar kernel. -/
theorem C1_parallel_equals_scalar (vlmax : Nat) (a b y : List Int) (n alpha : Int)
    (hv : 1 ≤ vlmax) (hn0 : 0 ≤ n) (hn1 : n < 2 ^ 31)
    (ha : a.length = n.toNat) (hb : b.length = n.toNat)
    (hae : ∀ x ∈ a, -32768 ≤ x ∧ x ≤ 32767)
    (hbe : ∀ x ∈ b, -32768 ≤ x ∧ x ≤ 32767)
    (hal : -32768 ≤ alpha ∧ alpha ≤ 32767) :
    q15_axpy_rvv vlmax a b y n alpha = q15_axpy_ref a b y n alpha ∧
      q15_axpy_rvv_fallback a b y n alpha = q15_axpy_ref a b y n alpha :=
  ⟨rvv_eq_ref vlmax a b y n alpha hv hn0 (by norm_num at hn1 ⊢; omega), rfl⟩

theorem C1_witness :
    q15_axpy_rvv 2 [1, -2, 3] [4, 5, -6] [0, 0, 0] 3 7
        = q15_axpy_ref [1, -2, 3] [4, 5, -6] [0, 0, 0] 3 7 ∧
      q15_axpy_rvv_fallback [1, -2, 3] [4, 5, -6] [0, 0, 0] 3 7
        = q15_axpy_ref [1, -2, 3] [4, 5, -6] [0, 0, 0] 3 7 :=
  C1_parallel_equals_scalar 2 [1, -2, 3] [4, 5, -6] [0, 0, 0] 3 7
    (by decide) (by decide) (by decide) (by decide) (by decide)
    (by decide) (by decide) (by decide)

/-- **C2**: for every `n ≥ 0`, every 16-bit signed `alpha`, and all 16-bit
signed input sequences of length `n`, the scalar kernel writes
`y[i] = sat_q15(a[i] + alpha * b[i])` at every index `i < n` (the wide
accumulator being exact integer arithmetic, which 32-bit width realises by
C6), and performs no writes when `n = 0`. -/
theorem C2_scalar_functional (a b y : List Int) (n alpha : Int)
    (hn0 : 0 ≤ n) (hy : y.length = n.toNat)
    (hae : ∀ x ∈ a, -32768 ≤ x ∧ x ≤ 32767)
    (hbe : ∀ x ∈ b, -32768 ≤ x ∧ x ≤ 32767)
    (hal : -32768 ≤ alpha ∧ alpha ≤ 32767) :
    (∀ i : Nat, i < n.toNat →
        (q15_axpy_ref a b y n alpha).getD i 0
          = sat_q15 (a.getD i 0 + alpha * b.getD i 0)) ∧
      (n = 0 → q15_axpy_ref a b y n alpha = y) := by
  constructor
  · intro i hi
    rw [q15_axpy_ref, List.range_eq_range']
    exact foldl_axpyStep_getD a b alpha n.toNat 0 y i (Nat.zero_le i) (by omega) (by omega)
  · intro h
    subst h
    simp [q15_axpy_ref]

theorem C2_witness :
    (∀ i : Nat, i < (1 : Int).toNat →
        (q15_axpy_ref [5] [6] [0] 1 2).getD i 0
          = sat_q15 ([5].getD i 0 + 2 * [6].getD i 0)) ∧
      ((1 : Int) = 0 → q15_axpy_ref [5] [6] [0] 1 2 = [0]) :=
  C2_scalar_functional [5] [6] [0] 1 2 (by decide) (by decide) (by decide)
    (by decide) (by decide)

/-- **C3**: the saturation primitive is a total pure function on the 32-bit
signed range: values above 32767 map to 32767, values below -32768 map to
-32768, and in-range values are returned unchanged (the narrowing cast is
lossless there), with no overflow anywhere in the 32-bit domain. -/
theorem C3_sat_q15_total (v : Int) (h1 : -(2 ^ 31) ≤ v) (h2 : v ≤ 2 ^ 31 - 1) :
    (32767 < v → sat_q15 v = 32767) ∧
      (v < -32768 → sat_q15 v = -32768) ∧
      (-32768 ≤ v → v ≤ 32767 → sat_q15 v = v) := by
  refine ⟨fun h => ?_, fun h => ?_, fun ha hb => ?_⟩ <;>
    · unfold sat_q15 wrap16
      split_ifs <;> omega

theorem C3_witness :
    (32767 < (40000 : Int) → sat_q15 40000 = 32767) ∧
      ((40000 : Int) < -32768 → sat_q15 40000 = -32768) ∧
      (-32768 ≤ (40000 : Int) → (40000 : Int) ≤ 32767 → sat_q15 40000 = 40000) :=
  C3_sat_q15_total 40000 (by decide) (by decide)

/-- **C4**: `arrays_match` returns in its second component the true maximum
of `|ref[i] - test[i]|` over all `i < n` (an upper bound on every index and
attained at some index unless zero, hence independent of traversal order),
and its match flag is true exactly when every element of `ref` equals the
corresponding element of `test`, which is also exactly when the maximum
difference is zero. -/
theorem C4_arrays_match_correct (r t : List Int) (n : Int)
    (hn0 : 0 ≤ n) (hr : r.length = n.toNat) (ht : t.length = n.toNat) :
    (∀ i : Nat, i < n.toNat → |r.getD i 0 - t.getD i 0| ≤ (arrays_match r t n).2) ∧
      ((arrays_match r t n).2 = 0 ∨
        ∃ i : Nat, i < n.toNat ∧ (arrays_match r t n).2 = |r.getD i 0 - t.getD i 0|) ∧
      ((arrays_match r t n).1 = true ↔
        ∀ i : Nat, i < n.toNat → r.getD i 0 = t.getD i 0) ∧
      ((arrays_match r t n).1 = true ↔ (arrays_match r t n).2 = 0) := by
  have hub := foldl_matchStep_snd_ub r t (List.range n.toNat) (true, 0)
  have hmem := foldl_matchStep_snd_mem r t (List.range n.toNat) (true, 0)
  have hfst := foldl_matchStep_fst r t (List.range n.toNat) (true, 0)
  rw [arrays_match]
  have hup : ∀ i : Nat, i < n.toNat →
      |r.getD i 0 - t.getD i 0|
        ≤ ((List.range n.toNat).foldl (matchStep r t) (true, 0)).2 := by
    intro i hi
    rw [← cAbs_eq_abs]
    exact hub.2 i (List.mem_range.mpr hi)
  have hat : ((List.range n.toNat).foldl (matchStep r t) (true, 0)).2 = 0 ∨
      ∃ i : Nat, i < n.toNat ∧
        ((List.range n.toNat).foldl (matchStep r t) (true, 0)).2
          = |r.getD i 0 - t.getD i 0| := by
    rcases hmem with h | ⟨i, hi, h⟩
    · exact Or.inl h
    · exact Or.inr ⟨i, List.mem_range.mp hi, by rw [← cAbs_eq_abs]; exact h⟩
  have heq : ((List.range n.toNat).foldl (matchStep r t) (true, 0)).1 = true ↔
      ∀ i : Nat, i < n.toNat → r.getD i 0 = t.getD i 0 := by
    rw [hfst]
    constructor
    · rintro ⟨_, h⟩ i hi
      exact h i (List.mem_range.mpr hi)
    · intro h
      exact ⟨rfl, fun i hi => h i (List.mem_range.mp hi)⟩
  refine ⟨hup, hat, heq, ?_⟩
  rw [heq]
  constructor
  · intro h
    rcases hat with h0 | ⟨i, hi, h0⟩
    · exact h0
    · rw [h0, h i hi]
      simp
  · intro h0 i hi
    have h1 := hup i hi
    rw [h0] at h1
    have h2 := abs_nonneg (r.getD i 0 - t.getD i 0)
    have : r.getD i 0 - t.getD i 0 = 0 := by
      rw [← abs_eq_zero]
      omega
    omega

theorem C4_witness :
    (∀ i : Nat, i < (2 : Int).toNat →
        |([1, 7] : List Int).getD i 0 - ([4, 5] : List Int).getD i 0|
          ≤ (arrays_match [1, 7] [4, 5] 2).2) ∧
      ((arrays_match [1, 7] [4, 5] 2).2 = 0 ∨
        ∃ i : Nat, i < (2 : Int).toNat ∧
          (arrays_match [1, 7] [4, 5] 2).2
            = |([1, 7] : List Int).getD i 0 - ([4, 5] : List Int).getD i 0|) ∧
      ((arrays_match [1, 7] [4, 5] 2).1 = true ↔
        ∀ i : Nat, i < (2 : Int).toNat →
          ([1, 7] : List Int).getD i 0 = ([4, 5] : List Int).getD i 0) ∧
      ((arrays_match [1, 7] [4, 5] 2).1 = true ↔ (arrays_match [1, 7] [4, 5] 2).2 = 0) :=
  C4_arrays_match_correct [1, 7] [4, 5] 2 (by decide) (by decide) (by decide)

/-- **C5**: in every valid invocation of either kernel (16-bit inputs,
output buffer of length `n`), every element of the output sequence lies in
`[-32768, 32767]`; the bound comes from the saturation primitive applied to
the wide accumulator (`sat_q15_range` holds for an arbitrary accumulator
value, so no clamping of the inputs is involved). -/
theorem C5_output_range (vlmax : Nat) (a b y : List Int) (n alpha : Int)
    (hv : 1 ≤ vlmax) (hn0 : 0 ≤ n) (hn1 : n < 2 ^ 31) (hy : y.length = n.toNat)
    (hae : ∀ x ∈ a, -32768 ≤ x ∧ x ≤ 32767)
    (hbe : ∀ x ∈ b, -32768 ≤ x ∧ x ≤ 32767)
    (hal : -32768 ≤ alpha ∧ alpha ≤ 32767) :
    (∀ x ∈ q15_axpy_ref a b y n alpha, -32768 ≤ x ∧ x ≤ 32767) ∧
      (∀ x ∈ q15_axpy_rvv vlmax a b y n alpha, -32768 ≤ x ∧ x ≤ 32767) := by
  have href : ∀ x ∈ q15_axpy_ref a b y n alpha, -32768 ≤ x ∧ x ≤ 32767 := by
    intro x hx
    rw [q15_axpy_ref, List.range_eq_range'] at hx
    obtain ⟨i, hilen, hix⟩ := List.mem_iff_getElem.mp hx
    have hi2 : i < n.toNat := by
      have := hilen
      rw [foldl_axpyStep_length a b alpha n.toNat 0 y, hy] at this
      exact this
    have hval := foldl_axpyStep_getD a b alpha n.toNat 0 y i
      (Nat.zero_le i) (by omega) (by omega)
    rw [List.getD_eq_getElem _ 0 hilen, hix] at hval
    rw [hval]
    exact sat_q15_range _
  refine ⟨href, ?_⟩
  rw [rvv_eq_ref vlmax a b y n alpha hv hn0 (by norm_num at hn1 ⊢; omega)]
  exact href

theorem C5_witness :
    (∀ x ∈ q15_axpy_ref [30000] [30000] [0] 1 30000, -32768 ≤ x ∧ x ≤ 32767) ∧
      (∀ x ∈ q15_axpy_rvv 2 [30000] [30000] [0] 1 30000, -32768 ≤ x ∧ x ≤ 32767) :=
  C5_output_range 2 [30000] [30000] [0] 1 30000 (by decide) (by decide)
    (by decide) (by decide) (by decide) (by decide) (by decide)

/-- **C6 counterexample**: at `a = 32767`, `alpha = -32768`, `b = -32768`
(all 16-bit signed values) the exact accumulator `a + alpha * b` equals
`1073774591`, whose magnitude exceeds the claimed bound
`32768 + 32767 * 32768 = 1073741824`. -/
theorem C6_counterexample :
    (-32768 ≤ (32767 : Int) ∧ (32767 : Int) ≤ 32767) ∧
      (-32768 ≤ (-32768 : Int) ∧ (-32768 : Int) ≤ 32767) ∧
      ¬ |q15_acc 32767 (-32768) (-32768)| ≤ 32768 + 32767 * 32768 := by
  refine ⟨by decide, by decide, ?_⟩
  rw [q15_acc]
  decide

/-- **C6 (amended)**: for every combination of 16-bit signed `a[i]`, `b[i]`
and `alpha`, the exact accumulator `a[i] + alpha * b[i]` has magnitude at
most `32767 + 32768 * 32768` and therefore fits in a 32-bit signed integer
without overflow, so the 32-bit intermediate computation in `q15_axpy_ref`
never wraps. -/
theorem C6_acc_fits_int32 (a alpha b : Int)
    (ha1 : -32768 ≤ a) (ha2 : a ≤ 32767)
    (hl1 : -32768 ≤ alpha) (hl2 : alpha ≤ 32767)
    (hb1 : -32768 ≤ b) (hb2 : b ≤ 32767) :
    |q15_acc a alpha b| ≤ 32767 + 32768 * 32768 ∧
      -(2 ^ 31) ≤ q15_acc a alpha b ∧ q15_acc a alpha b ≤ 2 ^ 31 - 1 := by
  have h := q15_acc_fits a alpha b ha1 ha2 hl1 hl2 hb1 hb2
  rw [abs_le] at h
  refine ⟨by rw [abs_le]; omega, by omega, by omega⟩

theorem C6_witness :
    |q15_acc 32767 (-32768) (-32768)| ≤ 32767 + 32768 * 32768 ∧
      -(2 ^ 31) ≤ q15_acc 32767 (-32768) (-32768) ∧
      q15_acc 32767 (-32768) (-32768) ≤ 2 ^ 31 - 1 :=
  C6_acc_fits_int32 32767 (-32768) (-32768) (by decide) (by decide)
    (by decide) (by decide) (by decide) (by decide)

/-- **C7**: each of the four single-element edge cases produces exactly the
expected value through both kernels (for any positive hardware width), and
the battery `run_edge_tests` as a whole passes. -/
theorem C7_edge_cases (vlmax : Nat) (hv : 1 ≤ vlmax) :
    q15_axpy_ref [32767] [1] [0] 1 1 = [32767] ∧
      q15_axpy_rvv vlmax [32767] [1] [0] 1 1 = [32767] ∧
      q15_axpy_ref [-32768] [1] [0] 1 (-1) = [-32768] ∧
      q15_axpy_rvv vlmax [-32768] [1] [0] 1 (-1) = [-32768] ∧
      q15_axpy_ref [0] [32767] [0] 1 32767 = [32767] ∧
      q15_axpy_rvv vlmax [0] [32767] [0] 1 32767 = [32767] ∧
      q15_axpy_ref [100] [200] [0] 1 5 = [1100] ∧
      q15_axpy_rvv vlmax [100] [200] [0] 1 5 = [1100] ∧
      run_edge_tests vlmax = true := by
  have h1 : ∀ a b alpha : Int,
      q15_axpy_rvv vlmax [a] [b] [0] 1 alpha = q15_axpy_ref [a] [b] [0] 1 alpha :=
    fun a b alpha =>
      rvv_eq_ref vlmax [a] [b] [0] 1 alpha hv (by norm_num) (by norm_num)
  refine ⟨by decide, ?_, by decide, ?_, by decide, ?_, by decide, ?_, ?_⟩
  · rw [h1]; decide
  · rw [h1]; decide
  · rw [h1]; decide
  · rw [h1]; decide
  · unfold run_edge_tests edge_case
    rw [h1, h1, h1, h1]
    decide

theorem C7_witness :
    q15_axpy_ref [32767] [1] [0] 1 1 = [32767] ∧
      q15_axpy_rvv 4 [32767] [1] [0] 1 1 = [32767] ∧
      q15_axpy_ref [-32768] [1] [0] 1 (-1) = [-32768] ∧
      q15_axpy_rvv 4 [-32768] [1] [0] 1 (-1) = [-32768] ∧
      q15_axpy_ref [0] [32767] [0] 1 32767 = [32767] ∧
      q15_axpy_rvv 4 [0] [32767] [0] 1 32767 = [32767] ∧
      q15_axpy_ref [100] [200] [0] 1 5 = [1100] ∧
      q15_axpy_rvv 4 [100] [200] [0] 1 5 = [1100] ∧
      run_edge_tests 4 = true :=
  C7_edge_cases 4 (by decide)

/-- **C8**: invoked with `n = 0`, both kernels (and the non-RISC-V
fallback) write nothing: the output buffer is returned unchanged. -/
theorem C8_n_zero_noop (vlmax : Nat) (a b y : List Int) (alpha : Int) :
    q15_axpy_ref a b y 0 alpha = y ∧
      q15_axpy_rvv vlmax a b y 0 alpha = y ∧
      q15_axpy_rvv_fallback a b y 0 alpha = y := by
  refine ⟨by simp [q15_axpy_ref], ?_, by simp [q15_axpy_rvv_fallback, q15_axpy_ref]⟩
  rw [q15_axpy_rvv]
  norm_num
  rw [rvvLoop]
  simp

/-- **C9**: a negative length behaves exactly like `n = 0` for the scalar
kernel: the loop guard `i < n` never holds, so no element of the output
buffer is written. -/
theorem C9_negative_n_noop (a b y : List Int) (n alpha : Int) (hn : n < 0) :
    q15_axpy_ref a b y n alpha = y := by
  have h : n.toNat = 0 := by omega
  simp [q15_axpy_ref, h]

theorem C9_witness : q15_axpy_ref [1] [2] [5] (-1) 3 = [5] :=
  C9_negative_n_noop [1] [2] [5] (-1) 3 (by decide)

/-- **C10**: `arrays_match` is symmetric in its two sequence arguments:
swapping them changes neither the match flag nor the maximum absolute
difference, because each per-index difference is taken in absolute value. -/
theorem C10_arrays_match_symm (x y : List Int) (n : Int)
    (hn0 : 0 ≤ n) (hx : x.length = n.toNat) (hy : y.length = n.toNat) :
    arrays_match x y n = arrays_match y x n := by
  unfold arrays_match
  apply List.foldl_ext
  intro st i _
  exact matchStep_comm x y st i

theorem C10_witness : arrays_match [1, 5] [3, 4] 2 = arrays_match [3, 4] [1, 5] 2 :=
  C10_arrays_match_symm [1, 5] [3, 4] 2 (by decide) (by decide) (by decide)
